import Mathlib

/-!
# photoprism-auto-import: the debounced import trigger

A shallow embedding of `main.go`.  The program watches a directory with
fsnotify and, once no further event has arrived for `-delay`, sends one
authenticated `POST .../import/` request to PhotoPrism.

Conventions of the embedding

* Times and durations are natural numbers of nanoseconds.  The quiet window is
  the value of the `-delay` flag ("how soon after the last filesystem event to
  trigger the import"), taken as a non-negative duration; a negative `-delay`
  is outside the model.
* The event loop goroutine is a fold of `step` over the timestamped inputs it
  receives; the timestamp of an input is the instant at which the loop handles
  it (the instant of the `time.AfterFunc` / `timer.Reset` call).
* `time.Timer` is a single slot holding either a pending deadline or nothing.
  A pending deadline that lies in the past when the loop handles an input has
  already run `doRequest`; a deadline equal to that instant is a race between
  the timer goroutine and the loop, resolved by the oracle `race`.
* The Go standard library and fsnotify are not part of the repository: the
  behaviour of `url.Parse`, `http.DefaultClient.Do` and `json.Unmarshal` is a
  parameter (`World`), and so are the results of the system calls of start-up
  (`OS`).
-/

namespace PhotoprismAutoImport

/-! ## fsnotify events -/

/-- The operation bits of `fsnotify.Op` (`1 << iota`). -/
def Create : Nat := 1
def Write : Nat := 2
def Remove : Nat := 4
def Rename : Nat := 8
def Chmod : Nat := 16

/-- An `fsnotify.Event`: the path and the set of operations as a bit mask. -/
structure Event where
  Name : String
  Op : Nat
deriving DecidableEq, Repr

/-- The method `Event.Has(op)`: `e.Op & op != 0`.  For a single bit this is the same test
as the `e.Op & op == op` of earlier fsnotify releases (`has_remove_eq_mask`). -/
def Event.Has (e : Event) (op : Nat) : Bool := (e.Op &&& op) != 0

/-! ## Configuration and logging -/

/-- The values captured by the closures of `main`: the flags `-debug`, `-delay`, `-move`,
the API URL after `url.JoinPath(*apiURL, "/import/")`, and the token. -/
structure Config where
  debug : Bool
  delay : Nat
  move : Bool
  apiURL : String
  token : String
deriving DecidableEq, Repr

/-- The zerolog levels the program uses. -/
inductive Level where
  | debug
  | info
  | error
  | fatal
deriving DecidableEq, Repr

/-- One log line: its level, the `.Err(err)` field if any, and the message.
Other structured fields (`op`, `path`) are not recorded. -/
structure LogEntry where
  level : Level
  err : Option String
  msg : String
deriving DecidableEq, Repr

/-- The global level is `DebugLevel` with `-debug` and `InfoLevel` otherwise. -/
def enabled (cfg : Config) (l : Level) : Bool := cfg.debug || l != Level.debug

/-- Write an entry to the log if its level is enabled. -/
def emit (cfg : Config) (e : LogEntry) (log : List LogEntry) : List LogEntry :=
  if enabled cfg e.level then log ++ [e] else log

/-- The number of entries of a level in a log. -/
def countLevel (l : Level) (log : List LogEntry) : Nat :=
  (log.filter (fun e => e.level == l)).length

/-! ## The event loop goroutine -/

/-- A `*time.Timer` made by `time.AfterFunc`: `when = some d` while it is pending with
deadline `d`, `none` once it has run its function. -/
structure Timer where
  when : Option Nat
deriving DecidableEq, Repr

/-- The calls the loop makes to the `time` package. -/
inductive TimerCall where
  | afterFunc (now d : Nat)
  | reset (now d : Nat)
deriving DecidableEq, Repr

/-- What the `select` of the loop can receive. -/
inductive Input where
  | event (e : Event)
  | error (err : String)
  | eventsClosed
  | errorsClosed
deriving DecidableEq, Repr

/-- The state of the goroutine: the variable `timer` (`none` is the nil pointer), whether
the loop is still running, the instants at which `doRequest` was started, the calls made to
the `time` package, and the log. -/
structure Coordinator where
  timer : Option Timer
  running : Bool
  fires : List Nat
  calls : List TimerCall
  log : List LogEntry
deriving DecidableEq, Repr

/-- The state when the goroutine starts: `var timer *time.Timer`. -/
def Coordinator.init : Coordinator :=
  { timer := none, running := true, fires := [], calls := [], log := [] }

/-- The timer goroutine up to the instant `now`: a pending timer whose deadline has passed
has run `doRequest` at its deadline; `race d` says whether a timer due exactly at `now`
ran before the loop handled its input. -/
def advance (race : Nat → Bool) (now : Nat) (s : Coordinator) : Coordinator :=
  match s.timer with
  | some ⟨some d⟩ =>
    if d < now ∨ (d = now ∧ race d = true) then
      { s with timer := some ⟨none⟩, fires := s.fires ++ [d] }
    else s
  | _ => s

/-- One iteration of the `for { select { ... } }` at the instant `now`. -/
def handle (cfg : Config) (now : Nat) (s : Coordinator) : Input → Coordinator
  | Input.eventsClosed => { s with running := false }
  | Input.errorsClosed => { s with running := false }
  | Input.error err => { s with log := emit cfg ⟨Level.error, some err, ""⟩ s.log }
  | Input.event e =>
    let s1 := { s with log := emit cfg ⟨Level.debug, none, ""⟩ s.log }
    if e.Has Remove then s1
    else
      match s1.timer with
      | none =>
        { s1 with timer := some ⟨some (now + cfg.delay)⟩,
                  calls := s1.calls ++ [TimerCall.afterFunc now cfg.delay] }
      | some _ =>
        { s1 with timer := some ⟨some (now + cfg.delay)⟩,
                  calls := s1.calls ++ [TimerCall.reset now cfg.delay] }

/-- The loop and the timer together on one timestamped input.  After the loop has
returned nothing reads the channels any more. -/
def step (cfg : Config) (race : Nat → Bool) (s : Coordinator) (p : Nat × Input) : Coordinator :=
  if s.running then handle cfg p.1 (advance race p.1 s) p.2 else s

/-- The loop on a finite sequence of timestamped inputs. -/
def runLoop (cfg : Config) (race : Nat → Bool) (s : Coordinator) :
    List (Nat × Input) → Coordinator
  | [] => s
  | p :: rest => runLoop cfg race (step cfg race s p) rest

/-- After the last input the process keeps blocking on `<-make(chan struct{})`, so a timer
that is still pending runs `doRequest` at its deadline. -/
def settle (s : Coordinator) : Coordinator :=
  match s.timer with
  | some ⟨some d⟩ => { s with timer := some ⟨none⟩, fires := s.fires ++ [d] }
  | _ => s

/-- The final state of the goroutine for a sequence of inputs. -/
def run (cfg : Config) (race : Nat → Bool) (inputs : List (Nat × Input)) : Coordinator :=
  settle (runLoop cfg race Coordinator.init inputs)

/-- The instants at which the Invoker `doRequest` is started, in order. -/
def fireTimes (cfg : Config) (race : Nat → Bool) (inputs : List (Nat × Input)) : List Nat :=
  (run cfg race inputs).fires

/-- A timestamped sequence of filesystem events as the inputs of the loop. -/
def asInputs (evs : List (Nat × Event)) : List (Nat × Input) :=
  evs.map (fun p => (p.1, Input.event p.2))

/-- A qualifying event is one that does not have the `Remove` bit. -/
def qualifying (e : Event) : Bool := !e.Has Remove

/-- The timestamps of the qualifying events of a sequence. -/
def qualTimes (evs : List (Nat × Event)) : List Nat :=
  (evs.filter (fun p => qualifying p.2)).map Prod.fst

/-! ## Bursts (from the glossary of the specification) -/

/-- The bursts of a list of timestamps: the maximal runs in which each timestamp is less
than `qw` after the one before it. -/
def bursts (qw : Nat) : List Nat → List (List Nat)
  | [] => []
  | [t] => [[t]]
  | t :: u :: rest =>
    if u < t + qw then
      match bursts qw (u :: rest) with
      | b :: bs => (t :: b) :: bs
      | [] => [[t]]
    else [t] :: bursts qw (u :: rest)

/-- The last timestamp of each burst. -/
def burstEnds (qw : Nat) : List Nat → List Nat
  | [] => []
  | [t] => [t]
  | t :: u :: rest =>
    if u < t + qw then burstEnds qw (u :: rest) else t :: burstEnds qw (u :: rest)

/-! ## The Invoker `doRequest` -/

/-- The request body type of the program. -/
structure RequestBody where
  Path : String
  Move : Bool
deriving DecidableEq, Repr

/-- The response body type of the program. -/
structure ResponseBody where
  Code : Int
  Error : String
  Message : String
deriving DecidableEq, Repr

/-- How `encoding/json` writes one character of a string (HTML escaping on). -/
def jsonEscape (c : Char) : String :=
  if c = '"' then "\\\""
  else if c = '\\' then "\\\\"
  else if c = '\n' then "\\n"
  else if c = '\r' then "\\r"
  else if c = '\t' then "\\t"
  else if c.toNat = 8 then "\\b"
  else if c.toNat = 12 then "\\f"
  else if c.toNat < 32 ∨ c = '<' ∨ c = '>' ∨ c = '&' then
    "\\u00" ++ String.singleton (Nat.digitChar (c.toNat / 16))
      ++ String.singleton (Nat.digitChar (c.toNat % 16))
  else if c.toNat = 8232 then "\\u2028"
  else if c.toNat = 8233 then "\\u2029"
  else String.singleton c

/-- A JSON string literal. -/
def jsonString (s : String) : String :=
  "\"" ++ String.join (s.toList.map jsonEscape) ++ "\""

/-- A JSON boolean. -/
def jsonBool (b : Bool) : String := if b then "true" else "false"

/-- The function `json.Marshal` on a `RequestBody`: the fields in declaration order under
their `json:` names.  It has no failing case for this type. -/
def marshal (r : RequestBody) : Except String String :=
  Except.ok ("\x7b\"path\":" ++ jsonString r.Path ++ ",\"move\":" ++ jsonBool r.Move ++ "\x7d")

/-- An `http.Request` as far as the program determines it. -/
structure Request where
  Method : String
  URL : String
  Header : List (String × String)
  Body : String
deriving DecidableEq, Repr

/-- The method `Header.Set`: replace the values of a key. -/
def headerSet (h : List (String × String)) (k v : String) : List (String × String) :=
  h.filter (fun p => p.1 != k) ++ [(k, v)]

/-- The method `Header.Get`: the first value of a key, or the empty string. -/
def headerGet (h : List (String × String)) (k : String) : String :=
  match h.find? (fun p => p.1 == k) with
  | some p => p.2
  | none => ""

/-- An `http.Response`: the status code and the result of `io.ReadAll(resp.Body)`. -/
structure Response where
  StatusCode : Int
  Body : Except String String

/-- The library calls of `doRequest` whose result depends on the outside world:
the error of `http.NewRequest` for a method and URL (if any), the result of
`http.DefaultClient.Do`, and `json.Unmarshal(data, &v)` as a function of the data and the
initial value of `v`. -/
structure World where
  newRequest : String → String → Option String
  Do : Request → Except String Response
  unmarshal : String → ResponseBody → Except String ResponseBody

/-- What one run of `doRequest` does: the lines it logs and the requests it hands to the
HTTP client. -/
structure Outcome where
  log : List LogEntry
  sent : List Request
deriving DecidableEq, Repr

/-- The value of `var response ResponseBody` before `json.Unmarshal`. -/
def zeroResponse : ResponseBody := ⟨0, "", ""⟩

/-- The closure `doRequest` of `main`. -/
def doRequest (cfg : Config) (w : World) : Outcome :=
  let log0 := emit cfg ⟨Level.debug, none, "Sending request"⟩ []
  match marshal ⟨"/", cfg.move⟩ with
  | Except.error err => ⟨emit cfg ⟨Level.error, some err, ""⟩ log0, []⟩
  | Except.ok body =>
    match w.newRequest "POST" cfg.apiURL with
    | some err => ⟨emit cfg ⟨Level.error, some err, ""⟩ log0, []⟩
    | none =>
      let req0 : Request := ⟨"POST", cfg.apiURL, [], body⟩
      let req1 : Request :=
        { req0 with Header := headerSet req0.Header "Authorization" ("Bearer " ++ cfg.token) }
      let req : Request :=
        { req1 with Header := headerSet req1.Header "Content-Type" "application/json" }
      match w.Do req with
      | Except.error err => ⟨emit cfg ⟨Level.error, some err, ""⟩ log0, [req]⟩
      | Except.ok resp =>
        match resp.Body with
        | Except.error err => ⟨emit cfg ⟨Level.error, some err, ""⟩ log0, [req]⟩
        | Except.ok raw =>
          match w.unmarshal raw zeroResponse with
          | Except.error _ =>
            ⟨emit cfg ⟨Level.error, none,
              "Unexpected response: " ++ toString resp.StatusCode ++ " => " ++ raw⟩ log0, [req]⟩
          | Except.ok response =>
            if response.Code != 200 then
              ⟨emit cfg ⟨Level.error, none,
                "Unexpected response: " ++ toString response.Code ++ " => " ++ response.Error⟩
                log0, [req]⟩
            else
              ⟨emit cfg ⟨Level.info, none,
                toString response.Code ++ " => " ++ response.Message⟩ log0, [req]⟩

/-- The request of the wire protocol as the specification words it: a POST to the import
endpoint with the two headers and the fixed JSON body. -/
def importRequest (url token : String) (move : Bool) : Request :=
  { Method := "POST", URL := url,
    Header := [("Authorization", "Bearer " ++ token), ("Content-Type", "application/json")],
    Body := "\x7b\"path\":\"/\",\"move\":" ++ (if move then "true" else "false") ++ "\x7d" }

/-! ## Start-up (`main`) -/

def appPasswordEnvKey : String := "PHOTOPRISM_APP_PASSWORD"

/-- The process environment of `main` after `flag.Parse` has returned: the flag values, the
positional arguments, and the results of the system and library calls of start-up. -/
structure OS where
  debug : Bool
  delay : Nat
  move : Bool
  url : String
  args : List String
  stat : String → Except String Bool
  joinPath : String → String → Except String String
  env : String → Option String
  newWatcher : Except String Unit
  watcherAdd : String → Option String

/-- The function `os.Getenv`: the value of the variable, empty when it is not set. -/
def OS.Getenv (os : OS) (key : String) : String := (os.env key).getD ""

/-- The observable steps of start-up. -/
inductive Effect where
  | usage
  | log (e : LogEntry)
  | newWatcher
  | spawnLoop
  | watcherAdd (path : String)
deriving DecidableEq, Repr

/-- The result of start-up: its steps in order, the exit status if the process ended
(`none`: it reached `<-make(chan struct{})`), and the configuration of the event loop
goroutine if it was started. -/
structure Startup where
  effects : List Effect
  exit : Option Nat
  loop : Option Config
deriving DecidableEq, Repr

/-- The call `log.Fatal()...`: one line at level fatal, then `os.Exit(1)`. -/
def fatal (before : List Effect) (err : Option String) (msg : String) (loop : Option Config) :
    Startup :=
  ⟨before ++ [Effect.log ⟨Level.fatal, err, msg⟩], some 1, loop⟩

/-- The function `main` up to the point where it blocks. -/
def main (os : OS) : Startup :=
  if os.args.length != 1 then ⟨[Effect.usage], some 2, none⟩
  else
    let path := os.args.headD ""
    match os.stat path with
    | Except.error err => fatal [] (some err) "" none
    | Except.ok isDir =>
      if !isDir then fatal [] none (path ++ ": not a directory") none
      else
        match os.joinPath os.url "/import/" with
        | Except.error err => fatal [] (some err) "" none
        | Except.ok apiURL =>
          let token := os.Getenv appPasswordEnvKey
          if token == "" then
            fatal [] none (appPasswordEnvKey ++ " environment variable is required") none
          else
            match os.newWatcher with
            | Except.error err => fatal [] (some err) "" none
            | Except.ok _ =>
              let cfg : Config := ⟨os.debug, os.delay, os.move, apiURL, token⟩
              match os.watcherAdd path with
              | some err => fatal [Effect.newWatcher, Effect.spawnLoop] (some err) "" (some cfg)
              | none =>
                ⟨[Effect.newWatcher, Effect.spawnLoop, Effect.watcherAdd path,
                  Effect.log ⟨Level.info, none, "Watching " ++ path⟩], none, some cfg⟩

/-- A run of the whole process: start-up, then the event loop on the inputs the watcher
delivers.  A process that ended during start-up has no loop reading inputs. -/
structure ProcessRun where
  exit : Option Nat
  loop : Coordinator
deriving DecidableEq, Repr

/-- The process on a sequence of timestamped watcher inputs. -/
def process (os : OS) (race : Nat → Bool) (inputs : List (Nat × Input)) : ProcessRun :=
  match (main os).exit, (main os).loop with
  | none, some cfg => ⟨none, run cfg race inputs⟩
  | e, _ => ⟨e, Coordinator.init⟩

/-! ## Sample data -/

/-- A configuration with a quiet window of ten time units. -/
def sampleConfig : Config :=
  ⟨false, 10, true, "http://127.0.0.1:2342/api/v1/import/", "secret"⟩

/-- The timer wins every race. -/
def sampleRace : Nat → Bool := fun _ => true

/-- Two bursts with removals in between: fires at 13 and 41. -/
def sampleEvents : List (Nat × Event) :=
  [(0, ⟨"a.jpg", Create⟩), (3, ⟨"a.jpg", Write⟩), (5, ⟨"b.jpg", Remove⟩),
   (13, ⟨"c.jpg", Remove ||| Rename⟩), (30, ⟨"d.jpg", Rename⟩), (31, ⟨"d.jpg", Chmod⟩)]

/-- One burst of three qualifying events. -/
def sampleBurst : List (Nat × Event) :=
  [(2, ⟨"a.jpg", Create⟩), (4, ⟨"a.jpg", Write⟩), (13, ⟨"a.jpg", Chmod⟩)]

/-- Only removals. -/
def sampleRemovals : List (Nat × Event) :=
  [(1, ⟨"a.jpg", Remove⟩), (1, ⟨"b.jpg", Remove ||| Write⟩), (40, ⟨"c.jpg", Remove⟩)]

/-- A world in which the service answers status 500 with the body of a successful import;
the decoder knows this body and one failure body. -/
def sampleWorld : World :=
  { newRequest := fun _ _ => none,
    Do := fun _ => Except.ok ⟨500, Except.ok "\x7b\"code\":200,\"message\":\"ok\"\x7d"⟩,
    unmarshal := fun raw v =>
      if raw = "\x7b\"code\":200,\"message\":\"ok\"\x7d" then
        Except.ok { v with Code := 200, Message := "ok" }
      else if raw = "\x7b\"code\":500,\"error\":\"bad\"\x7d" then
        Except.ok { v with Code := 500, Error := "bad" }
      else Except.error "invalid character" }

/-- A world in which the service answers status 200 with a failure body. -/
def sampleFailingWorld : World :=
  { sampleWorld with
    Do := fun _ => Except.ok ⟨200, Except.ok "\x7b\"code\":500,\"error\":\"bad\"\x7d"⟩ }

/-- A start-up environment with a directory to watch and no token. -/
def sampleOS : OS :=
  { debug := false, delay := 10, move := false, url := "http://127.0.0.1:2342/api/v1/",
    args := ["/photos/import"],
    stat := fun _ => Except.ok true,
    joinPath := fun _ _ => Except.ok "http://127.0.0.1:2342/api/v1/import/",
    env := fun _ => none,
    newWatcher := Except.ok (),
    watcherAdd := fun _ => none }

/-! ## Lemmas on the event loop -/

theorem qualTimes_nil : qualTimes [] = [] := rfl

theorem qualTimes_cons_qualifying (t : Nat) (e : Event) (rest : List (Nat × Event))
    (h : e.Has Remove = false) : qualTimes ((t, e) :: rest) = t :: qualTimes rest := by
  simp [qualTimes, qualifying, h]

theorem qualTimes_cons_remove (t : Nat) (e : Event) (rest : List (Nat × Event))
    (h : e.Has Remove = true) : qualTimes ((t, e) :: rest) = qualTimes rest := by
  simp [qualTimes, qualifying, h]

theorem mem_of_mem_qualTimes {evs : List (Nat × Event)} {u : Nat} (h : u ∈ qualTimes evs) :
    ∃ p ∈ evs, p.1 = u := by
  simp only [qualTimes, List.mem_map, List.mem_filter] at h
  obtain ⟨p, ⟨hp, _⟩, rfl⟩ := h
  exact ⟨p, hp, rfl⟩

theorem asInputs_cons (t : Nat) (e : Event) (rest : List (Nat × Event)) :
    asInputs ((t, e) :: rest) = (t, Input.event e) :: asInputs rest := rfl

theorem advance_running (race : Nat → Bool) (now : Nat) (s : Coordinator) :
    (advance race now s).running = s.running := by
  unfold advance
  split
  · split <;> rfl
  · rfl

theorem advance_calls (race : Nat → Bool) (now : Nat) (s : Coordinator) :
    (advance race now s).calls = s.calls := by
  unfold advance
  split
  · split <;> rfl
  · rfl

theorem advance_idle (race : Nat → Bool) (now : Nat) (s : Coordinator)
    (h : s.timer = none ∨ s.timer = some ⟨none⟩) : advance race now s = s := by
  unfold advance
  rcases h with h | h <;> simp [h]

theorem advance_armed (race : Nat → Bool) (now d : Nat) (s : Coordinator)
    (h : s.timer = some ⟨some d⟩) :
    ((advance race now s).timer = some ⟨none⟩ ∧ (advance race now s).fires = s.fires ++ [d]
        ∧ d ≤ now)
      ∨ (advance race now s = s ∧ now ≤ d) := by
  unfold advance
  simp only [h]
  split
  · rename_i hc
    left
    refine ⟨rfl, rfl, ?_⟩
    rcases hc with hc | ⟨hc, _⟩ <;> omega
  · rename_i hc
    right
    refine ⟨rfl, ?_⟩
    by_contra hlt
    exact hc (Or.inl (by omega))

theorem handle_event_running (cfg : Config) (now : Nat) (s : Coordinator) (e : Event) :
    (handle cfg now s (Input.event e)).running = s.running := by
  simp only [handle]
  split
  · rfl
  · split <;> rfl

theorem handle_event_fires (cfg : Config) (now : Nat) (s : Coordinator) (e : Event) :
    (handle cfg now s (Input.event e)).fires = s.fires := by
  simp only [handle]
  split
  · rfl
  · split <;> rfl

theorem handle_event_remove (cfg : Config) (now : Nat) (s : Coordinator) (e : Event)
    (h : e.Has Remove = true) :
    (handle cfg now s (Input.event e)).timer = s.timer
      ∧ (handle cfg now s (Input.event e)).calls = s.calls := by
  simp [handle, h]

theorem handle_event_qualifying (cfg : Config) (now : Nat) (s : Coordinator) (e : Event)
    (h : e.Has Remove = false) :
    (handle cfg now s (Input.event e)).timer = some ⟨some (now + cfg.delay)⟩ := by
  simp only [handle, h, Bool.false_eq_true, if_false]
  split <;> rfl

theorem burstEnds_cons_far (qw t0 : Nat) (qs : List Nat) (h : ∀ u ∈ qs, t0 + qw ≤ u) :
    burstEnds qw (t0 :: qs) = t0 :: burstEnds qw qs := by
  cases qs with
  | nil => rfl
  | cons u rest =>
    have := h u (List.mem_cons_self _ _)
    simp only [burstEnds]
    rw [if_neg (by omega)]

/-- The loop against the specification of bursts, from a state whose timer is pending with
deadline `t0 + delay` and from a state without a pending timer. -/
theorem fires_runLoop (cfg : Config) (race : Nat → Bool) (evs : List (Nat × Event)) :
    (∀ (s : Coordinator) (t0 : Nat), s.running = true →
        s.timer = some ⟨some (t0 + cfg.delay)⟩ →
        (∀ p ∈ evs, t0 ≤ p.1) →
        evs.Pairwise (fun a b => a.1 ≤ b.1) →
        (t0 :: qualTimes evs).Chain' (fun a b => b ≠ a + cfg.delay) →
        (settle (runLoop cfg race s (asInputs evs))).fires
          = s.fires ++ (burstEnds cfg.delay (t0 :: qualTimes evs)).map (· + cfg.delay))
    ∧ (∀ (s : Coordinator), s.running = true →
        (s.timer = none ∨ s.timer = some ⟨none⟩) →
        evs.Pairwise (fun a b => a.1 ≤ b.1) →
        (qualTimes evs).Chain' (fun a b => b ≠ a + cfg.delay) →
        (settle (runLoop cfg race s (asInputs evs))).fires
          = s.fires ++ (burstEnds cfg.delay (qualTimes evs)).map (· + cfg.delay)) := by
  induction evs with
  | nil =>
    constructor
    · intro s t0 _ ht _ _ _
      simp [asInputs, runLoop, settle, ht, qualTimes, burstEnds]
    · intro s _ ht _ _
      rcases ht with ht | ht <;> simp [asInputs, runLoop, settle, ht, qualTimes, burstEnds]
  | cons p rest ih =>
    obtain ⟨t, e⟩ := p
    obtain ⟨ihA, ihI⟩ := ih
    constructor
    · intro s t0 hrun ht hge hsort hch
      have hsort2 := List.pairwise_cons.mp hsort
      have ht0 : t0 ≤ t := hge (t, e) (List.mem_cons_self _ _)
      rw [asInputs_cons, runLoop]
      simp only [step, hrun, if_true]
      have hr1 : (handle cfg t (advance race t s) (Input.event e)).running = true := by
        rw [handle_event_running, advance_running]; exact hrun
      have hf1 := handle_event_fires cfg t (advance race t s) e
      cases hrem : e.Has Remove with
      | true =>
        have hq := qualTimes_cons_remove t e rest hrem
        rw [hq] at hch ⊢
        have htm := (handle_event_remove cfg t (advance race t s) e hrem).1
        rcases advance_armed race t (t0 + cfg.delay) s ht with ⟨ha, hfa, hle⟩ | ⟨ha, _⟩
        · rw [ihI _ hr1 (Or.inr (by rw [htm, ha])) hsort2.2 hch.tail, hf1, hfa]
          rw [burstEnds_cons_far]
          · simp
          · intro u hu
            obtain ⟨p, hp, rfl⟩ := mem_of_mem_qualTimes hu
            have := hsort2.1 p hp
            simp only at this
            omega
        · rw [ihA _ t0 hr1 (by rw [htm, ha, ht]) ?_ hsort2.2 hch, hf1, ha]
          intro p hp
          have := hsort2.1 p hp
          simp only at this
          omega
      | false =>
        have hq := qualTimes_cons_qualifying t e rest hrem
        rw [hq] at hch ⊢
        have htm := handle_event_qualifying cfg t (advance race t s) e hrem
        have hne : t ≠ t0 + cfg.delay := (List.chain'_cons.mp hch).1
        have hch2 := (List.chain'_cons.mp hch).2
        have hge2 : ∀ p ∈ rest, t ≤ p.1 := fun p hp => hsort2.1 p hp
        rw [ihA _ t hr1 htm hge2 hsort2.2 hch2, hf1]
        rcases advance_armed race t (t0 + cfg.delay) s ht with ⟨_, hfa, hle⟩ | ⟨ha, hle⟩
        · rw [hfa]
          have hnlt : ¬ t < t0 + cfg.delay := by omega
          cases hqs : qualTimes rest <;> simp [burstEnds, hnlt]
        · rw [ha]
          have hlt : t < t0 + cfg.delay := by omega
          cases hqs : qualTimes rest <;> simp [burstEnds, hlt]
    · intro s hrun ht hsort hch
      have hsort2 := List.pairwise_cons.mp hsort
      rw [asInputs_cons, runLoop]
      simp only [step, hrun, if_true]
      rw [advance_idle race t s ht]
      have hr1 : (handle cfg t s (Input.event e)).running = true := by
        rw [handle_event_running]; exact hrun
      have hf1 := handle_event_fires cfg t s e
      cases hrem : e.Has Remove with
      | true =>
        have hq := qualTimes_cons_remove t e rest hrem
        rw [hq] at hch ⊢
        have htm := (handle_event_remove cfg t s e hrem).1
        rw [ihI _ hr1 (by rw [htm]; exact ht) hsort2.2 hch, hf1]
      | false =>
        have hq := qualTimes_cons_qualifying t e rest hrem
        rw [hq] at hch ⊢
        have htm := handle_event_qualifying cfg t s e hrem
        have hge2 : ∀ p ∈ rest, t ≤ p.1 := fun p hp => hsort2.1 p hp
        rw [ihA _ t hr1 htm hge2 hsort2.2 hch, hf1]

/-- The fire times of a chronological event sequence without an exact tie are the burst
ends of its qualifying timestamps, each moved by the quiet window. -/
theorem fireTimes_eq_burstEnds (cfg : Config) (race : Nat → Bool) (evs : List (Nat × Event))
    (hsort : evs.Pairwise (fun a b => a.1 ≤ b.1))
    (hch : (qualTimes evs).Chain' (fun a b => b ≠ a + cfg.delay)) :
    fireTimes cfg race (asInputs evs)
      = (burstEnds cfg.delay (qualTimes evs)).map (· + cfg.delay) := by
  have h := (fires_runLoop cfg race evs).2 Coordinator.init rfl (Or.inl rfl) hsort hch
  simpa [fireTimes, run, Coordinator.init] using h

/-! ## Lemmas on bursts -/

theorem bursts_ne_nil (qw t : Nat) (ts : List Nat) : bursts qw (t :: ts) ≠ [] := by
  induction ts generalizing t with
  | nil => simp [bursts]
  | cons u rest ih =>
    simp only [bursts]
    split
    · have := ih u
      split
      · simp
      · simp
    · simp

theorem bursts_mem_ne_nil (qw : Nat) (ts : List Nat) : ∀ b ∈ bursts qw ts, b ≠ [] := by
  induction ts with
  | nil => simp [bursts]
  | cons t rest ih =>
    cases rest with
    | nil => simp [bursts]
    | cons u rest2 =>
      simp only [bursts]
      split
      · split
        · rename_i b bs hb
          intro c hc
          rcases List.mem_cons.mp hc with rfl | hc
          · simp
          · exact ih c (by rw [hb]; exact List.mem_cons_of_mem _ hc)
        · simp
      · intro c hc
        rcases List.mem_cons.mp hc with rfl | hc
        · simp
        · exact ih c hc

/-- The bursts partition the list of timestamps in order. -/
theorem bursts_join (qw : Nat) (ts : List Nat) : (bursts qw ts).flatten = ts := by
  induction ts with
  | nil => simp [bursts]
  | cons t rest ih =>
    cases rest with
    | nil => simp [bursts]
    | cons u rest2 =>
      simp only [bursts]
      split
      · split
        · rename_i b bs hb
          rw [hb] at ih
          simp only [List.flatten_cons, List.cons_append] at ih ⊢
          rw [ih]
        · rename_i hb
          exact absurd hb (bursts_ne_nil qw u rest2)
      · simp only [List.flatten_cons, List.singleton_append]
        rw [ih]

/-- Inside a burst each timestamp is less than the quiet window after the one before. -/
theorem bursts_chain (qw : Nat) (ts : List Nat) :
    ∀ b ∈ bursts qw ts, b.Chain' (fun x y => y < x + qw) := by
  induction ts with
  | nil => simp [bursts]
  | cons t rest ih =>
    cases rest with
    | nil => simp [bursts]
    | cons u rest2 =>
      simp only [bursts]
      split
      · rename_i hlt
        split
        · rename_i b bs hb
          have hju := bursts_join qw (u :: rest2)
          rw [hb] at hju ih
          have hbne : b ≠ [] := bursts_mem_ne_nil qw (u :: rest2) b (by rw [hb]; simp)
          intro c hc
          rcases List.mem_cons.mp hc with rfl | hc
          · cases b with
            | nil => exact absurd rfl hbne
            | cons x b2 =>
              simp only [List.flatten_cons, List.cons_append, List.cons.injEq] at hju
              rw [List.chain'_cons]
              refine ⟨?_, ih _ (List.mem_cons_self _ _)⟩
              rw [hju.1]; exact hlt
          · exact ih c (List.mem_cons_of_mem _ hc)
        · simp
      · intro c hc
        rcases List.mem_cons.mp hc with rfl | hc
        · simp
        · exact ih c hc

/-- The ends of the bursts are what `burstEnds` computes. -/
theorem bursts_map_getLastD (qw : Nat) (ts : List Nat) :
    (bursts qw ts).map (fun b => b.getLastD 0) = burstEnds qw ts := by
  induction ts with
  | nil => simp [bursts, burstEnds]
  | cons t rest ih =>
    cases rest with
    | nil => simp [bursts, burstEnds]
    | cons u rest2 =>
      simp only [bursts, burstEnds]
      split
      · split
        · rename_i b bs hb
          have hbne : b ≠ [] := bursts_mem_ne_nil qw (u :: rest2) b (by rw [hb]; simp)
          rw [hb] at ih
          rw [← ih]
          cases b with
          | nil => exact absurd rfl hbne
          | cons x b2 => simp
        · rename_i hb
          exact absurd hb (bursts_ne_nil qw u rest2)
      · simp only [List.map_cons, List.getLastD_cons, List.getLastD_nil]
        rw [ih]

theorem bursts_head (qw u : Nat) (rest : List Nat) :
    ∃ b bs, bursts qw (u :: rest) = (u :: b) :: bs := by
  induction rest generalizing u with
  | nil => exact ⟨[], [], rfl⟩
  | cons v r ih =>
    obtain ⟨b, bs, hb⟩ := ih v
    simp only [bursts, hb]
    split
    · exact ⟨v :: b, bs, rfl⟩
    · exact ⟨[], (v :: b) :: bs, rfl⟩

/-- The bursts are maximal: a burst starts at least the quiet window after the end of the
burst before it. -/
theorem bursts_separated (qw : Nat) (ts : List Nat) :
    (bursts qw ts).Chain'
      (fun b c => ∀ x y, b.getLast? = some x → c.head? = some y → x + qw ≤ y) := by
  induction ts with
  | nil => simp [bursts]
  | cons t rest ih =>
    cases rest with
    | nil => simp [bursts]
    | cons u rest2 =>
      obtain ⟨b, bs, hb⟩ := bursts_head qw u rest2
      rw [hb] at ih
      simp only [bursts, hb]
      split
      · rw [List.chain'_cons'] at ih ⊢
        refine ⟨?_, ih.2⟩
        intro c hc x y hx hy
        rw [List.getLast?_cons_cons] at hx
        exact ih.1 c hc x y hx hy
      · rw [List.chain'_cons]
        refine ⟨?_, ih⟩
        intro x y hx hy
        simp only [List.getLast?_singleton, Option.some.injEq, List.head?_cons] at hx hy
        omega

theorem burstEnds_subset (qw : Nat) (ts : List Nat) : ∀ e ∈ burstEnds qw ts, e ∈ ts := by
  induction ts with
  | nil => simp [burstEnds]
  | cons t rest ih =>
    cases rest with
    | nil => simp [burstEnds]
    | cons u rest2 =>
      simp only [burstEnds]
      intro e he
      split at he
      · exact List.mem_cons_of_mem _ (ih e he)
      · rcases List.mem_cons.mp he with rfl | he
        · exact List.mem_cons_self _ _
        · exact List.mem_cons_of_mem _ (ih e he)

/-- No timestamp lies in the quiet window that follows the end of a burst. -/
theorem burstEnds_quiet (qw : Nat) (ts : List Nat) (hsort : ts.Pairwise (· ≤ ·))
    (hch : ts.Chain' (fun a b => b ≠ a + qw)) :
    ∀ e ∈ burstEnds qw ts, ∀ t ∈ ts, t ≤ e + qw → t ≤ e := by
  induction ts with
  | nil => simp [burstEnds]
  | cons t rest ih =>
    cases rest with
    | nil => simp [burstEnds]
    | cons u rest2 =>
      have hs := List.pairwise_cons.mp hsort
      have hc := List.chain'_cons.mp hch
      have ih2 := ih hs.2 hc.2
      simp only [burstEnds]
      intro e he x hx hxe
      split at he
      · have hmem := burstEnds_subset qw _ e he
        rcases List.mem_cons.mp hx with rfl | hx
        · exact hs.1 e hmem
        · exact ih2 e he x hx hxe
      · rename_i hnlt
        rcases List.mem_cons.mp he with rfl | he
        · rcases List.mem_cons.mp hx with rfl | hx
          · exact le_refl _
          · have h1 := (List.pairwise_cons.mp hs.2)
            have hux : u ≤ x := by
              rcases List.mem_cons.mp hx with rfl | hx
              · exact le_refl _
              · exact h1.1 x hx
            have := hc.1
            omega
        · have hmem := burstEnds_subset qw _ e he
          rcases List.mem_cons.mp hx with rfl | hx
          · exact hs.1 e hmem
          · exact ih2 e he x hx hxe

theorem qualTimes_sorted (evs : List (Nat × Event))
    (hsort : evs.Pairwise (fun a b => a.1 ≤ b.1)) : (qualTimes evs).Pairwise (· ≤ ·) := by
  unfold qualTimes
  rw [List.pairwise_map]
  exact List.Pairwise.filter _ hsort

theorem qualTimes_all_qualifying (evs : List (Nat × Event))
    (hq : ∀ p ∈ evs, p.2.Has Remove = false) : qualTimes evs = evs.map Prod.fst := by
  unfold qualTimes
  rw [List.filter_eq_self.mpr]
  intro p hp
  simp [qualifying, hq p hp]

theorem qualTimes_all_remove (evs : List (Nat × Event))
    (hq : ∀ p ∈ evs, p.2.Has Remove = true) : qualTimes evs = [] := by
  unfold qualTimes
  rw [List.filter_eq_nil_iff.mpr]
  · rfl
  · intro p hp
    simp [qualifying, hq p hp]

theorem burstEnds_close (qw : Nat) (evs : List (Nat × Event)) (hne : evs ≠ [])
    (hgap : evs.Chain' (fun a b => a.1 ≤ b.1 ∧ b.1 < a.1 + qw)) :
    burstEnds qw (evs.map Prod.fst) = [(evs.getLast hne).1] := by
  induction evs with
  | nil => exact absurd rfl hne
  | cons p rest ih =>
    cases rest with
    | nil => simp [burstEnds]
    | cons q rest2 =>
      have hc := List.chain'_cons.mp hgap
      have := ih (by simp) hc.2
      simp only [List.map_cons, burstEnds] at this ⊢
      rw [if_pos hc.1.2, List.getLast_cons (by simp)]
      exact this

theorem sorted_of_close (qw : Nat) (evs : List (Nat × Event))
    (hgap : evs.Chain' (fun a b => a.1 ≤ b.1 ∧ b.1 < a.1 + qw)) :
    evs.Pairwise (fun a b => a.1 ≤ b.1) := by
  induction evs with
  | nil => exact List.Pairwise.nil
  | cons p rest ih =>
    cases rest with
    | nil => simp
    | cons q rest2 =>
      have hc := List.chain'_cons.mp hgap
      have ih2 := ih hc.2
      have hq := List.pairwise_cons.mp ih2
      refine List.pairwise_cons.mpr ⟨?_, ih2⟩
      intro x hx
      rcases List.mem_cons.mp hx with rfl | hx
      · exact hc.1.1
      · exact le_trans hc.1.1 (hq.1 x hx)

theorem noTie_of_close (qw : Nat) (evs : List (Nat × Event))
    (hgap : evs.Chain' (fun a b => a.1 ≤ b.1 ∧ b.1 < a.1 + qw)) :
    (evs.map Prod.fst).Chain' (fun a b => b ≠ a + qw) := by
  rw [List.chain'_map]
  refine List.Chain'.imp ?_ hgap
  intro a b h
  omega

theorem runLoop_remove (cfg : Config) (race : Nat → Bool) (evs : List (Nat × Event))
    (hq : ∀ p ∈ evs, p.2.Has Remove = true) (s : Coordinator) (ht : s.timer = none) :
    (runLoop cfg race s (asInputs evs)).timer = none
      ∧ (runLoop cfg race s (asInputs evs)).calls = s.calls
      ∧ (runLoop cfg race s (asInputs evs)).fires = s.fires := by
  induction evs generalizing s with
  | nil => exact ⟨ht, rfl, rfl⟩
  | cons p rest ih =>
    obtain ⟨t, e⟩ := p
    have hrem : e.Has Remove = true := hq (t, e) (List.mem_cons_self _ _)
    have hrest : ∀ p ∈ rest, p.2.Has Remove = true :=
      fun p hp => hq p (List.mem_cons_of_mem _ hp)
    rw [asInputs_cons, runLoop]
    by_cases hrun : s.running = true
    · have hst : step cfg race s (t, Input.event e) = handle cfg t s (Input.event e) := by
        simp only [step, hrun, if_true]
        rw [advance_idle race t s (Or.inl ht)]
      have h1 := handle_event_remove cfg t s e hrem
      have h2 := handle_event_fires cfg t s e
      rw [hst]
      obtain ⟨g1, g2, g3⟩ := ih hrest (handle cfg t s (Input.event e)) (by rw [h1.1]; exact ht)
      exact ⟨g1, by rw [g2, h1.2], by rw [g3, h2]⟩
    · have hst : step cfg race s (t, Input.event e) = s := by
        simp only [step, hrun]
        rfl
      rw [hst]
      exact ih hrest s ht

theorem has_remove_eq_testBit (e : Event) : e.Has Remove = e.Op.testBit 2 := by
  unfold Event.Has Remove
  cases hb : e.Op.testBit 2 with
  | true =>
    have h : (e.Op &&& 4).testBit 2 = true := by
      rw [Nat.testBit_and, hb]
      decide
    simp only [bne_iff_ne, ne_eq]
    intro h0
    rw [h0] at h
    simp at h
  | false =>
    have h : e.Op &&& 4 = 0 := by
      apply Nat.eq_of_testBit_eq
      intro i
      rw [Nat.testBit_and, Nat.zero_testBit]
      by_cases hi : i = 2
      · subst hi
        rw [hb]
        rfl
      · have : Nat.testBit 4 i = false := by
          have := @Nat.testBit_two_pow_of_ne 2 i (fun h => hi h.symm)
          simpa using this
        rw [this]
        simp
    simp [h]

theorem has_remove_eq_mask (e : Event) :
    e.Has Remove = ((e.Op &&& Remove) == Remove) := by
  rw [has_remove_eq_testBit]
  unfold Remove
  cases hb : e.Op.testBit 2 with
  | true =>
    have h : e.Op &&& 4 = 4 := by
      apply Nat.eq_of_testBit_eq
      intro i
      rw [Nat.testBit_and]
      by_cases hi : i = 2
      · subst hi
        rw [hb]
        rfl
      · have : Nat.testBit 4 i = false := by
          have := @Nat.testBit_two_pow_of_ne 2 i (fun h => hi h.symm)
          simpa using this
        rw [this]
        simp
    simp [h]
  | false =>
    have h : (e.Op &&& 4).testBit 2 = false := by
      rw [Nat.testBit_and, hb]
      rfl
    have hne : e.Op &&& 4 ≠ 4 := by
      intro h4
      rw [h4] at h
      exact absurd h (by decide)
    simp [hne]

/-! ## The Debounce Coordinator: the claims -/

/-- C1: a non-empty sequence of qualifying events, each arriving less than the quiet window
after its predecessor, makes the Invoker fire exactly once, at the timestamp of the last
event plus the quiet window. -/
theorem burst_fires_once (cfg : Config) (race : Nat → Bool) (evs : List (Nat × Event))
    (hne : evs ≠ [])
    (hq : ∀ p ∈ evs, p.2.Has Remove = false)
    (hgap : evs.Chain' (fun a b => a.1 ≤ b.1 ∧ b.1 < a.1 + cfg.delay)) :
    fireTimes cfg race (asInputs evs) = [(evs.getLast hne).1 + cfg.delay] := by
  have hqt := qualTimes_all_qualifying evs hq
  have hch := noTie_of_close cfg.delay evs hgap
  rw [← hqt] at hch
  rw [fireTimes_eq_burstEnds cfg race evs (sorted_of_close cfg.delay evs hgap) hch, hqt,
    burstEnds_close cfg.delay evs hne hgap]
  rfl

theorem burst_fires_once_witness :
    sampleBurst ≠ [] ∧ fireTimes sampleConfig sampleRace (asInputs sampleBurst) = [23] :=
  ⟨by decide,
   burst_fires_once sampleConfig sampleRace sampleBurst (by decide) (by decide)
     (by simp [sampleBurst, sampleConfig])⟩

/-- C2: a chronological event sequence whose qualifying events are two events more than
the quiet window apart makes the Invoker fire exactly twice, once for each of them. -/
theorem two_separated_events_fire_twice (cfg : Config) (race : Nat → Bool)
    (evs : List (Nat × Event)) (a b : Nat)
    (hsort : evs.Pairwise (fun x y => x.1 ≤ y.1))
    (hq : qualTimes evs = [a, b])
    (hfar : a + cfg.delay < b) :
    fireTimes cfg race (asInputs evs) = [a + cfg.delay, b + cfg.delay]
      ∧ (fireTimes cfg race (asInputs evs)).length = 2 := by
  have hch : (qualTimes evs).Chain' (fun x y => y ≠ x + cfg.delay) := by
    rw [hq]
    simp only [List.chain'_cons, List.chain'_singleton, and_true]
    omega
  have hnlt : ¬ b < a + cfg.delay := by omega
  have h := fireTimes_eq_burstEnds cfg race evs hsort hch
  rw [hq] at h
  simp only [burstEnds, hnlt, if_false, List.map_cons, List.map_nil] at h
  rw [h]
  exact ⟨rfl, rfl⟩

theorem two_separated_events_fire_twice_witness :
    fireTimes sampleConfig sampleRace
        (asInputs [(1, ⟨"a.jpg", Create⟩), (4, ⟨"b.jpg", Remove⟩), (12, ⟨"c.jpg", Write⟩)])
      = [11, 22] :=
  (two_separated_events_fire_twice sampleConfig sampleRace
    [(1, ⟨"a.jpg", Create⟩), (4, ⟨"b.jpg", Remove⟩), (12, ⟨"c.jpg", Write⟩)] 1 12
    (by decide) (by decide) (by decide)).1

/-- C3: one qualifying event followed by one Remove event that arrives before the timer
fires: the Invoker fires exactly once, at the time scheduled by the first event; handling
the Remove event leaves the pending timer as it was (no reset, no cancellation), and so
does handling a Remove event in any state with a pending timer. -/
theorem remove_keeps_pending_timer (cfg : Config) (race : Nat → Bool) (t0 t1 : Nat)
    (e0 e1 : Event)
    (h0 : e0.Has Remove = false) (h1 : e1.Has Remove = true)
    (hle : t0 ≤ t1) (hlt : t1 < t0 + cfg.delay) :
    fireTimes cfg race (asInputs [(t0, e0), (t1, e1)]) = [t0 + cfg.delay]
      ∧ (runLoop cfg race Coordinator.init (asInputs [(t0, e0)])).timer
          = some ⟨some (t0 + cfg.delay)⟩
      ∧ (runLoop cfg race Coordinator.init (asInputs [(t0, e0), (t1, e1)])).timer
          = some ⟨some (t0 + cfg.delay)⟩
      ∧ (runLoop cfg race Coordinator.init (asInputs [(t0, e0), (t1, e1)])).calls
          = [TimerCall.afterFunc t0 cfg.delay]
      ∧ (runLoop cfg race Coordinator.init (asInputs [(t0, e0), (t1, e1)])).fires = []
      ∧ (∀ (s : Coordinator) (d : Nat), s.timer = some ⟨some d⟩ → t1 < d →
          (step cfg race s (t1, Input.event e1)).timer = s.timer
            ∧ (step cfg race s (t1, Input.event e1)).calls = s.calls
            ∧ (step cfg race s (t1, Input.event e1)).fires = s.fires) := by
  have hframe : ∀ (s : Coordinator) (d : Nat), s.timer = some ⟨some d⟩ → t1 < d →
      (step cfg race s (t1, Input.event e1)).timer = s.timer
        ∧ (step cfg race s (t1, Input.event e1)).calls = s.calls
        ∧ (step cfg race s (t1, Input.event e1)).fires = s.fires := by
    intro s d hs hd
    unfold step
    split
    · have hadv : advance race t1 s = s := by
        rcases advance_armed race t1 d s hs with ⟨_, _, h⟩ | ⟨h, _⟩
        · omega
        · exact h
      simp only [hadv]
      exact ⟨(handle_event_remove cfg t1 s e1 h1).1, (handle_event_remove cfg t1 s e1 h1).2,
        handle_event_fires cfg t1 s e1⟩
    · exact ⟨rfl, rfl, rfl⟩
  have hs1 : runLoop cfg race Coordinator.init (asInputs [(t0, e0)])
      = { timer := some ⟨some (t0 + cfg.delay)⟩, running := true, fires := [],
          calls := [TimerCall.afterFunc t0 cfg.delay],
          log := emit cfg ⟨Level.debug, none, ""⟩ [] } := by
    simp [asInputs, runLoop, step, Coordinator.init, advance, handle, h0]
  have hs2 : runLoop cfg race Coordinator.init (asInputs [(t0, e0), (t1, e1)])
      = step cfg race (runLoop cfg race Coordinator.init (asInputs [(t0, e0)]))
          (t1, Input.event e1) := by
    simp [asInputs, runLoop]
  have hfr := hframe (runLoop cfg race Coordinator.init (asInputs [(t0, e0)]))
    (t0 + cfg.delay) (by rw [hs1]) hlt
  refine ⟨?_, by rw [hs1], ?_, ?_, ?_, hframe⟩
  · have hsort : [(t0, e0), (t1, e1)].Pairwise (fun x y => x.1 ≤ y.1) := by
      simp [hle]
    have hqt : qualTimes [(t0, e0), (t1, e1)] = [t0] := by
      rw [qualTimes_cons_qualifying _ _ _ h0, qualTimes_cons_remove _ _ _ h1]
      rfl
    rw [fireTimes_eq_burstEnds cfg race _ hsort (by rw [hqt]; simp), hqt]
    rfl
  · rw [hs2, hfr.1, hs1]
  · rw [hs2, hfr.2.1, hs1]
  · rw [hs2, hfr.2.2, hs1]

theorem remove_keeps_pending_timer_witness :
    fireTimes sampleConfig sampleRace
        (asInputs [(1, ⟨"a.jpg", Create⟩), (4, ⟨"a.jpg", Remove⟩)]) = [11] :=
  (remove_keeps_pending_timer sampleConfig sampleRace 1 4 ⟨"a.jpg", Create⟩ ⟨"a.jpg", Remove⟩
    (by decide) (by decide) (by decide) (by decide)).1

/-- C4: on a finite sequence of events that all have the Remove bit the Coordinator makes
no call to the timer package, its timer stays nil, and the Invoker never fires. -/
theorem only_removes_never_fire (cfg : Config) (race : Nat → Bool) (evs : List (Nat × Event))
    (hq : ∀ p ∈ evs, p.2.Has Remove = true) :
    (run cfg race (asInputs evs)).timer = none
      ∧ (run cfg race (asInputs evs)).calls = []
      ∧ fireTimes cfg race (asInputs evs) = [] := by
  obtain ⟨g1, g2, g3⟩ := runLoop_remove cfg race evs hq Coordinator.init rfl
  simp only [fireTimes, run, settle, g1]
  exact ⟨trivial, g2, g3⟩

theorem only_removes_never_fire_witness :
    fireTimes sampleConfig sampleRace (asInputs sampleRemovals) = [] :=
  (only_removes_never_fire sampleConfig sampleRace sampleRemovals (by decide)).2.2

/-- C9: for a chronological sequence of events, qualifying and Remove mixed, in which no
qualifying event arrives exactly the quiet window after the previous qualifying event, the
fires are, in order, the ends of the bursts of the qualifying timestamps plus the quiet
window, so there are as many fires as bursts; no fire occurs less than the quiet window
after a qualifying event that precedes it; and a timer that has fired is armed again by a
qualifying event through `Reset`. -/
theorem fires_match_bursts (cfg : Config) (race : Nat → Bool) (evs : List (Nat × Event))
    (hsort : evs.Pairwise (fun a b => a.1 ≤ b.1))
    (hch : (qualTimes evs).Chain' (fun a b => b ≠ a + cfg.delay)) :
    fireTimes cfg race (asInputs evs)
        = (bursts cfg.delay (qualTimes evs)).map (fun b => b.getLastD 0 + cfg.delay)
      ∧ (fireTimes cfg race (asInputs evs)).length = (bursts cfg.delay (qualTimes evs)).length
      ∧ (∀ f ∈ fireTimes cfg race (asInputs evs), ∀ t ∈ qualTimes evs,
          t ≤ f → t + cfg.delay ≤ f)
      ∧ (∀ (s : Coordinator) (now : Nat) (e : Event),
          s.timer = some ⟨none⟩ → e.Has Remove = false →
          (handle cfg now s (Input.event e)).timer = some ⟨some (now + cfg.delay)⟩
            ∧ (handle cfg now s (Input.event e)).calls
                = s.calls ++ [TimerCall.reset now cfg.delay]) := by
  have h := fireTimes_eq_burstEnds cfg race evs hsort hch
  have hmap : fireTimes cfg race (asInputs evs)
      = (bursts cfg.delay (qualTimes evs)).map (fun b => b.getLastD 0 + cfg.delay) := by
    rw [h, ← bursts_map_getLastD, List.map_map]
    rfl
  refine ⟨hmap, by rw [hmap, List.length_map], ?_, ?_⟩
  · intro f hf t ht htf
    rw [h] at hf
    obtain ⟨e, he, rfl⟩ := List.mem_map.mp hf
    have := burstEnds_quiet cfg.delay (qualTimes evs) (qualTimes_sorted evs hsort) hch e he t ht
      htf
    omega
  · intro s now e hs he
    simp [handle, he, hs]

theorem fires_match_bursts_witness :
    fireTimes sampleConfig sampleRace (asInputs sampleEvents) = [13, 41]
      ∧ bursts sampleConfig.delay (qualTimes sampleEvents) = [[0, 3], [30, 31]] :=
  ⟨(fires_match_bursts sampleConfig sampleRace sampleEvents (by decide)
      (by rw [show qualTimes sampleEvents = [0, 3, 30, 31] from by decide]
          simp [sampleConfig])).1.trans
      (by decide),
   by decide⟩

/-- C10: the Coordinator tests the Remove bit of the operation set.  An event with the bit
(alone or combined with any other operations) leaves the timer, the calls to the timer
package and the fires unchanged; an event without it (among them Rename-only and
Chmod-only events) creates the timer with `AfterFunc` when the variable is nil and
otherwise resets it, in both cases to fire the quiet window from now. -/
theorem remove_bit_decides (cfg : Config) (now : Nat) (s : Coordinator) (e : Event) :
    e.Has Remove = e.Op.testBit 2
      ∧ (e.Op.testBit 2 = true →
          (handle cfg now s (Input.event e)).timer = s.timer
            ∧ (handle cfg now s (Input.event e)).calls = s.calls
            ∧ (handle cfg now s (Input.event e)).fires = s.fires)
      ∧ (e.Op.testBit 2 = false → s.timer = none →
          (handle cfg now s (Input.event e)).timer = some ⟨some (now + cfg.delay)⟩
            ∧ (handle cfg now s (Input.event e)).calls
                = s.calls ++ [TimerCall.afterFunc now cfg.delay])
      ∧ (e.Op.testBit 2 = false → s.timer ≠ none →
          (handle cfg now s (Input.event e)).timer = some ⟨some (now + cfg.delay)⟩
            ∧ (handle cfg now s (Input.event e)).calls
                = s.calls ++ [TimerCall.reset now cfg.delay])
      ∧ (∀ o : Nat, Event.Has ⟨e.Name, Remove ||| o⟩ Remove = true)
      ∧ Event.Has ⟨e.Name, Rename⟩ Remove = false
      ∧ Event.Has ⟨e.Name, Chmod⟩ Remove = false
      ∧ Event.Has ⟨e.Name, Create⟩ Remove = false
      ∧ Event.Has ⟨e.Name, Write⟩ Remove = false := by
  have hbit := has_remove_eq_testBit e
  have hop : ∀ o : Nat, (o &&& 4 = 0) → Event.Has ⟨e.Name, o⟩ Remove = false := by
    intro o ho
    simp [Event.Has, Remove, ho]
  refine ⟨hbit, ?_, ?_, ?_, ?_, hop Rename (by decide), hop Chmod (by decide),
    hop Create (by decide), hop Write (by decide)⟩
  · intro hb
    rw [← hbit] at hb
    exact ⟨(handle_event_remove cfg now s e hb).1, (handle_event_remove cfg now s e hb).2,
      handle_event_fires cfg now s e⟩
  · intro hb hs
    rw [← hbit] at hb
    simp [handle, hb, hs]
  · intro hb hs
    rw [← hbit] at hb
    cases hst : s.timer with
    | none => exact absurd hst hs
    | some tm => simp [handle, hb, hst]
  · intro o
    rw [has_remove_eq_testBit]
    simp only [Nat.testBit_or]
    have : Remove.testBit 2 = true := by decide
    rw [this]
    rfl

theorem remove_bit_decides_witness :
    (handle sampleConfig 7 Coordinator.init (Input.event ⟨"a.jpg", Remove ||| Create⟩)).timer
        = none
      ∧ (handle sampleConfig 7 Coordinator.init (Input.event ⟨"a.jpg", Rename⟩)).timer
        = some ⟨some 17⟩ :=
  ⟨((remove_bit_decides sampleConfig 7 Coordinator.init ⟨"a.jpg", Remove ||| Create⟩).2.1
      (by decide)).1,
   ((remove_bit_decides sampleConfig 7 Coordinator.init ⟨"a.jpg", Rename⟩).2.2.1
      (by decide) rfl).1⟩

/-! ## The Invoker: lemmas -/

theorem marshal_requestBody (b : Bool) :
    marshal ⟨"/", b⟩
      = Except.ok ("\x7b\"path\":\"/\",\"move\":" ++ (if b then "true" else "false") ++ "\x7d") := by
  have h : jsonString "/" = "\"/\"" := by decide
  unfold marshal jsonBool
  rw [h]
  cases b <;> rfl

theorem built_request (cfg : Config) (body : String) :
    ({ Method := "POST", URL := cfg.apiURL,
       Header := headerSet (headerSet [] "Authorization" ("Bearer " ++ cfg.token))
         "Content-Type" "application/json",
       Body := body } : Request)
      = { Method := "POST", URL := cfg.apiURL,
          Header := [("Authorization", "Bearer " ++ cfg.token),
            ("Content-Type", "application/json")],
          Body := body } := by
  simp [headerSet]

/-- The debug line every run of `doRequest` starts with (written only with `-debug`). -/
theorem log0_counts (cfg : Config) :
    countLevel Level.error (emit cfg ⟨Level.debug, none, "Sending request"⟩ []) = 0
      ∧ countLevel Level.info (emit cfg ⟨Level.debug, none, "Sending request"⟩ []) = 0
      ∧ countLevel Level.fatal (emit cfg ⟨Level.debug, none, "Sending request"⟩ []) = 0 := by
  unfold emit countLevel
  split <;> simp

theorem countLevel_emit (cfg : Config) (l : Level) (e : LogEntry) (log : List LogEntry)
    (he : e.level ≠ Level.debug) :
    countLevel l (emit cfg e log) = countLevel l log + (if e.level = l then 1 else 0) := by
  have hen : enabled cfg e.level = true := by
    unfold enabled
    simp [he]
  unfold emit countLevel
  rw [if_pos hen, List.filter_append, List.length_append]
  by_cases h : e.level = l <;> simp [h]

theorem emit_not_debug (cfg : Config) (e : LogEntry) (log : List LogEntry)
    (he : e.level ≠ Level.debug) : emit cfg e log = log ++ [e] := by
  unfold emit enabled
  simp [he]

theorem doRequest_newRequest_error (cfg : Config) (w : World) (err : String)
    (h : w.newRequest "POST" cfg.apiURL = some err) :
    doRequest cfg w
      = ⟨emit cfg ⟨Level.error, some err, ""⟩
          (emit cfg ⟨Level.debug, none, "Sending request"⟩ []), []⟩ := by
  simp [doRequest, marshal_requestBody, h]

theorem doRequest_transport_error (cfg : Config) (w : World) (err : String)
    (h : w.newRequest "POST" cfg.apiURL = none)
    (hdo : w.Do (importRequest cfg.apiURL cfg.token cfg.move) = Except.error err) :
    doRequest cfg w
      = ⟨emit cfg ⟨Level.error, some err, ""⟩
          (emit cfg ⟨Level.debug, none, "Sending request"⟩ []),
         [importRequest cfg.apiURL cfg.token cfg.move]⟩ := by
  unfold importRequest at hdo
  simp [doRequest, marshal_requestBody, h, built_request, hdo, importRequest]

theorem doRequest_read_error (cfg : Config) (w : World) (status : Int) (err : String)
    (h : w.newRequest "POST" cfg.apiURL = none)
    (hdo : w.Do (importRequest cfg.apiURL cfg.token cfg.move)
      = Except.ok ⟨status, Except.error err⟩) :
    doRequest cfg w
      = ⟨emit cfg ⟨Level.error, some err, ""⟩
          (emit cfg ⟨Level.debug, none, "Sending request"⟩ []),
         [importRequest cfg.apiURL cfg.token cfg.move]⟩ := by
  unfold importRequest at hdo
  simp [doRequest, marshal_requestBody, h, built_request, hdo, importRequest]

theorem doRequest_unparseable (cfg : Config) (w : World) (status : Int) (raw err : String)
    (h : w.newRequest "POST" cfg.apiURL = none)
    (hdo : w.Do (importRequest cfg.apiURL cfg.token cfg.move)
      = Except.ok ⟨status, Except.ok raw⟩)
    (hun : w.unmarshal raw zeroResponse = Except.error err) :
    doRequest cfg w
      = ⟨emit cfg ⟨Level.error, none,
            "Unexpected response: " ++ toString status ++ " => " ++ raw⟩
          (emit cfg ⟨Level.debug, none, "Sending request"⟩ []),
         [importRequest cfg.apiURL cfg.token cfg.move]⟩ := by
  unfold importRequest at hdo
  simp [doRequest, marshal_requestBody, h, built_request, hdo, hun, importRequest]

theorem doRequest_bad_code (cfg : Config) (w : World) (status : Int) (raw : String)
    (r : ResponseBody)
    (h : w.newRequest "POST" cfg.apiURL = none)
    (hdo : w.Do (importRequest cfg.apiURL cfg.token cfg.move)
      = Except.ok ⟨status, Except.ok raw⟩)
    (hun : w.unmarshal raw zeroResponse = Except.ok r) (hcode : r.Code ≠ 200) :
    doRequest cfg w
      = ⟨emit cfg ⟨Level.error, none,
            "Unexpected response: " ++ toString r.Code ++ " => " ++ r.Error⟩
          (emit cfg ⟨Level.debug, none, "Sending request"⟩ []),
         [importRequest cfg.apiURL cfg.token cfg.move]⟩ := by
  unfold importRequest at hdo
  simp [doRequest, marshal_requestBody, h, built_request, hdo, hun, importRequest, hcode]

theorem doRequest_success (cfg : Config) (w : World) (status : Int) (raw : String)
    (r : ResponseBody)
    (h : w.newRequest "POST" cfg.apiURL = none)
    (hdo : w.Do (importRequest cfg.apiURL cfg.token cfg.move)
      = Except.ok ⟨status, Except.ok raw⟩)
    (hun : w.unmarshal raw zeroResponse = Except.ok r) (hcode : r.Code = 200) :
    doRequest cfg w
      = ⟨emit cfg ⟨Level.info, none, toString r.Code ++ " => " ++ r.Message⟩
          (emit cfg ⟨Level.debug, none, "Sending request"⟩ []),
         [importRequest cfg.apiURL cfg.token cfg.move]⟩ := by
  unfold importRequest at hdo
  simp [doRequest, marshal_requestBody, h, built_request, hdo, hun, importRequest, hcode]

theorem counts_error_entry (cfg : Config) (err : Option String) (msg : String) :
    countLevel Level.info (emit cfg ⟨Level.error, err, msg⟩
        (emit cfg ⟨Level.debug, none, "Sending request"⟩ [])) = 0
      ∧ countLevel Level.error (emit cfg ⟨Level.error, err, msg⟩
        (emit cfg ⟨Level.debug, none, "Sending request"⟩ [])) = 1
      ∧ countLevel Level.fatal (emit cfg ⟨Level.error, err, msg⟩
        (emit cfg ⟨Level.debug, none, "Sending request"⟩ [])) = 0 := by
  obtain ⟨h1, h2, h3⟩ := log0_counts cfg
  refine ⟨?_, ?_, ?_⟩ <;> rw [countLevel_emit _ _ _ _ (by simp)] <;> simp [h1, h2, h3]

theorem counts_info_entry (cfg : Config) (msg : String) :
    countLevel Level.info (emit cfg ⟨Level.info, none, msg⟩
        (emit cfg ⟨Level.debug, none, "Sending request"⟩ [])) = 1
      ∧ countLevel Level.error (emit cfg ⟨Level.info, none, msg⟩
        (emit cfg ⟨Level.debug, none, "Sending request"⟩ [])) = 0
      ∧ countLevel Level.fatal (emit cfg ⟨Level.info, none, msg⟩
        (emit cfg ⟨Level.debug, none, "Sending request"⟩ [])) = 0 := by
  obtain ⟨h1, h2, h3⟩ := log0_counts cfg
  refine ⟨?_, ?_, ?_⟩ <;> rw [countLevel_emit _ _ _ _ (by simp)] <;> simp [h1, h2, h3]

/-- Every run of `doRequest` logs either one info line and no error line, or one error line
and no info line; it never logs at level fatal and hands at most one request to the
client; and the info line is logged exactly when the transport delivered a body that
decodes to a response with code 200. -/
theorem doRequest_counts (cfg : Config) (w : World) :
    ((countLevel Level.info (doRequest cfg w).log = 1
          ∧ countLevel Level.error (doRequest cfg w).log = 0
          ∧ ∃ status raw r, w.newRequest "POST" cfg.apiURL = none
              ∧ w.Do (importRequest cfg.apiURL cfg.token cfg.move)
                  = Except.ok ⟨status, Except.ok raw⟩
              ∧ w.unmarshal raw zeroResponse = Except.ok r ∧ r.Code = 200)
        ∨ (countLevel Level.info (doRequest cfg w).log = 0
          ∧ countLevel Level.error (doRequest cfg w).log = 1))
      ∧ countLevel Level.fatal (doRequest cfg w).log = 0
      ∧ (doRequest cfg w).sent.length ≤ 1 := by
  cases hreq : w.newRequest "POST" cfg.apiURL with
  | some err =>
    rw [doRequest_newRequest_error cfg w err hreq]
    obtain ⟨h1, h2, h3⟩ := counts_error_entry cfg (some err) ""
    exact ⟨Or.inr ⟨h1, h2⟩, h3, by simp⟩
  | none =>
    cases hdo : w.Do (importRequest cfg.apiURL cfg.token cfg.move) with
    | error err =>
      rw [doRequest_transport_error cfg w err hreq hdo]
      obtain ⟨h1, h2, h3⟩ := counts_error_entry cfg (some err) ""
      exact ⟨Or.inr ⟨h1, h2⟩, h3, by simp⟩
    | ok resp =>
      obtain ⟨status, body⟩ := resp
      cases body with
      | error err =>
        rw [doRequest_read_error cfg w status err hreq hdo]
        obtain ⟨h1, h2, h3⟩ := counts_error_entry cfg (some err) ""
        exact ⟨Or.inr ⟨h1, h2⟩, h3, by simp⟩
      | ok raw =>
        cases hun : w.unmarshal raw zeroResponse with
        | error err =>
          rw [doRequest_unparseable cfg w status raw err hreq hdo hun]
          obtain ⟨h1, h2, h3⟩ := counts_error_entry cfg none
            ("Unexpected response: " ++ toString status ++ " => " ++ raw)
          exact ⟨Or.inr ⟨h1, h2⟩, h3, by simp⟩
        | ok r =>
          by_cases hcode : r.Code = 200
          · rw [doRequest_success cfg w status raw r hreq hdo hun hcode]
            obtain ⟨h1, h2, h3⟩ := counts_info_entry cfg
              (toString r.Code ++ " => " ++ r.Message)
            exact ⟨Or.inl ⟨h1, h2, status, raw, r, rfl, rfl, hun, hcode⟩, h3, by simp⟩
          · rw [doRequest_bad_code cfg w status raw r hreq hdo hun hcode]
            obtain ⟨h1, h2, h3⟩ := counts_error_entry cfg none
              ("Unexpected response: " ++ toString r.Code ++ " => " ++ r.Error)
            exact ⟨Or.inr ⟨h1, h2⟩, h3, by simp⟩

/-- The configuration the closures of `main` capture: the joined import URL, the `-move`
and `-delay` flags and the token of the environment. -/
theorem main_loop_config (os : OS) (cfg : Config) (h : (main os).loop = some cfg) :
    os.joinPath os.url "/import/" = Except.ok cfg.apiURL
      ∧ cfg.move = os.move
      ∧ cfg.delay = os.delay
      ∧ cfg.token = os.Getenv appPasswordEnvKey := by
  unfold main at h
  by_cases hargs : (os.args.length != 1) = true
  · rw [if_pos hargs] at h
    simp at h
  · rw [if_neg hargs] at h
    cases hstat : os.stat (os.args.headD "") with
    | error e =>
      simp only [hstat, fatal] at h
      simp at h
    | ok isDir =>
      cases isDir with
      | false =>
        simp only [hstat, fatal] at h
        simp at h
      | true =>
        cases hj : os.joinPath os.url "/import/" with
        | error e =>
          simp only [hstat, hj, fatal] at h
          simp at h
        | ok u =>
          by_cases htok : (os.Getenv appPasswordEnvKey == "") = true
          · simp only [hstat, hj, htok, fatal] at h
            simp at h
          · cases hw : os.newWatcher with
            | error e =>
              simp only [hstat, hj, htok, hw, fatal] at h
              simp at h
            | ok v =>
              cases ha : os.watcherAdd (os.args.headD "") with
              | some e =>
                simp only [hstat, hj, htok, hw, ha, fatal] at h
                simp only [Bool.not_true, Bool.false_eq_true, if_false, Option.some.injEq] at h
                subst h
                exact ⟨rfl, rfl, rfl, rfl⟩
              | none =>
                simp only [hstat, hj, htok, hw, ha, fatal] at h
                simp only [Bool.not_true, Bool.false_eq_true, if_false, Option.some.injEq] at h
                subst h
                exact ⟨rfl, rfl, rfl, rfl⟩

/-! ## The Invoker: the claims -/

/-- C5: when the transport delivers a status and a body, `doRequest` takes the success path
(one info line with the code and the message) if and only if the body decodes to a
response whose code is 200; otherwise it logs one error and no info line; the HTTP status
has no part in the decision. -/
theorem success_iff_code_200 (cfg : Config) (w : World) (status : Int) (raw : String)
    (hreq : w.newRequest "POST" cfg.apiURL = none)
    (hdo : w.Do (importRequest cfg.apiURL cfg.token cfg.move)
      = Except.ok ⟨status, Except.ok raw⟩) :
    (countLevel Level.info (doRequest cfg w).log = 1
        ↔ ∃ r, w.unmarshal raw zeroResponse = Except.ok r ∧ r.Code = 200)
      ∧ (∀ r, w.unmarshal raw zeroResponse = Except.ok r → r.Code = 200 →
          (doRequest cfg w).log
            = emit cfg ⟨Level.debug, none, "Sending request"⟩ []
                ++ [⟨Level.info, none, toString r.Code ++ " => " ++ r.Message⟩])
      ∧ ((¬ ∃ r, w.unmarshal raw zeroResponse = Except.ok r ∧ r.Code = 200) →
          countLevel Level.info (doRequest cfg w).log = 0
            ∧ countLevel Level.error (doRequest cfg w).log = 1)
      ∧ (∀ (w2 : World) (status2 : Int), w2.newRequest "POST" cfg.apiURL = none →
          w2.Do (importRequest cfg.apiURL cfg.token cfg.move)
            = Except.ok ⟨status2, Except.ok raw⟩ →
          w2.unmarshal = w.unmarshal →
          countLevel Level.info (doRequest cfg w2).log
            = countLevel Level.info (doRequest cfg w).log) := by
  have key : ∀ (w1 : World) (st : Int), w1.newRequest "POST" cfg.apiURL = none →
      w1.Do (importRequest cfg.apiURL cfg.token cfg.move) = Except.ok ⟨st, Except.ok raw⟩ →
      ((∃ r, w1.unmarshal raw zeroResponse = Except.ok r ∧ r.Code = 200)
          ∧ countLevel Level.info (doRequest cfg w1).log = 1)
        ∨ ((¬ ∃ r, w1.unmarshal raw zeroResponse = Except.ok r ∧ r.Code = 200)
          ∧ countLevel Level.info (doRequest cfg w1).log = 0
          ∧ countLevel Level.error (doRequest cfg w1).log = 1) := by
    intro w1 st h1 h2
    cases hun : w1.unmarshal raw zeroResponse with
    | error err =>
      right
      rw [doRequest_unparseable cfg w1 st raw err h1 h2 hun]
      obtain ⟨c1, c2, _⟩ := counts_error_entry cfg none
        ("Unexpected response: " ++ toString st ++ " => " ++ raw)
      exact ⟨by simp, c1, c2⟩
    | ok r =>
      by_cases hcode : r.Code = 200
      · left
        rw [doRequest_success cfg w1 st raw r h1 h2 hun hcode]
        exact ⟨⟨r, rfl, hcode⟩, (counts_info_entry cfg _).1⟩
      · right
        rw [doRequest_bad_code cfg w1 st raw r h1 h2 hun hcode]
        obtain ⟨c1, c2, _⟩ := counts_error_entry cfg none
          ("Unexpected response: " ++ toString r.Code ++ " => " ++ r.Error)
        refine ⟨?_, c1, c2⟩
        rintro ⟨r2, hr2, hc2⟩
        cases hr2
        exact hcode hc2
  refine ⟨?_, ?_, ?_, ?_⟩
  · rcases key w status hreq hdo with ⟨hex, hc⟩ | ⟨hnex, hc, _⟩
    · exact ⟨fun _ => hex, fun _ => hc⟩
    · constructor
      · intro h
        rw [hc] at h
        exact absurd h (by decide)
      · intro h
        exact absurd h hnex
  · intro r hun hcode
    rw [doRequest_success cfg w status raw r hreq hdo hun hcode]
    exact emit_not_debug cfg _ _ (by simp)
  · intro hnex
    rcases key w status hreq hdo with ⟨hex, _⟩ | ⟨_, hc, hc2⟩
    · exact absurd hex hnex
    · exact ⟨hc, hc2⟩
  · intro w2 status2 hreq2 hdo2 hun2
    rcases key w status hreq hdo with ⟨hex, hc⟩ | ⟨hnex, hc, _⟩
    · rcases key w2 status2 hreq2 hdo2 with ⟨_, hd⟩ | ⟨hnex2, _, _⟩
      · rw [hc, hd]
      · rw [hun2] at hnex2
        exact absurd hex hnex2
    · rcases key w2 status2 hreq2 hdo2 with ⟨hex2, _⟩ | ⟨_, hd, _⟩
      · rw [hun2] at hex2
        exact absurd hex2 hnex
      · rw [hc, hd]

theorem success_iff_code_200_witness :
    (doRequest sampleConfig sampleWorld).log = [⟨Level.info, none, "200 => ok"⟩] :=
  ((success_iff_code_200 sampleConfig sampleWorld 500
    "\x7b\"code\":200,\"message\":\"ok\"\x7d" rfl rfl).2.1
    ⟨200, "", "ok"⟩ (by simp [sampleWorld, zeroResponse]) rfl).trans (by decide)

/-- C6: a run of `doRequest` that does not take the success path logs exactly one error
line, logs nothing at level fatal (the process is not terminated) and hands at most one
request to the client (no retry); a request that cannot be built is never sent, a transport
or read error is logged with the error, a body that does not decode is logged with the
HTTP status and the raw body, and a decoded response whose code is not 200 is logged with
its own code and error field. -/
theorem failure_logs_one_error (cfg : Config) (w : World) :
    (countLevel Level.info (doRequest cfg w).log = 0 →
        countLevel Level.error (doRequest cfg w).log = 1
          ∧ countLevel Level.fatal (doRequest cfg w).log = 0
          ∧ (doRequest cfg w).sent.length ≤ 1)
      ∧ (∀ err, w.newRequest "POST" cfg.apiURL = some err →
          (doRequest cfg w).log
              = emit cfg ⟨Level.debug, none, "Sending request"⟩ []
                  ++ [⟨Level.error, some err, ""⟩]
            ∧ (doRequest cfg w).sent = [])
      ∧ (∀ err, w.newRequest "POST" cfg.apiURL = none →
          w.Do (importRequest cfg.apiURL cfg.token cfg.move) = Except.error err →
          (doRequest cfg w).log
              = emit cfg ⟨Level.debug, none, "Sending request"⟩ []
                  ++ [⟨Level.error, some err, ""⟩]
            ∧ (doRequest cfg w).sent.length = 1)
      ∧ (∀ status raw err, w.newRequest "POST" cfg.apiURL = none →
          w.Do (importRequest cfg.apiURL cfg.token cfg.move)
            = Except.ok ⟨status, Except.ok raw⟩ →
          w.unmarshal raw zeroResponse = Except.error err →
          (doRequest cfg w).log
              = emit cfg ⟨Level.debug, none, "Sending request"⟩ []
                  ++ [⟨Level.error, none,
                        "Unexpected response: " ++ toString status ++ " => " ++ raw⟩]
            ∧ (doRequest cfg w).sent.length = 1)
      ∧ (∀ status raw r, w.newRequest "POST" cfg.apiURL = none →
          w.Do (importRequest cfg.apiURL cfg.token cfg.move)
            = Except.ok ⟨status, Except.ok raw⟩ →
          w.unmarshal raw zeroResponse = Except.ok r → r.Code ≠ 200 →
          (doRequest cfg w).log
              = emit cfg ⟨Level.debug, none, "Sending request"⟩ []
                  ++ [⟨Level.error, none,
                        "Unexpected response: " ++ toString r.Code ++ " => " ++ r.Error⟩]
            ∧ (doRequest cfg w).sent.length = 1) := by
  refine ⟨?_, ?_, ?_, ?_, ?_⟩
  · intro hfail
    obtain ⟨hc, hfatal, hsent⟩ := doRequest_counts cfg w
    rcases hc with ⟨h1, _⟩ | ⟨_, h2⟩
    · rw [hfail] at h1
      exact absurd h1 (by decide)
    · exact ⟨h2, hfatal, hsent⟩
  · intro err h
    rw [doRequest_newRequest_error cfg w err h]
    exact ⟨emit_not_debug cfg _ _ (by simp), rfl⟩
  · intro err h hdo
    rw [doRequest_transport_error cfg w err h hdo]
    exact ⟨emit_not_debug cfg _ _ (by simp), rfl⟩
  · intro status raw err h hdo hun
    rw [doRequest_unparseable cfg w status raw err h hdo hun]
    exact ⟨emit_not_debug cfg _ _ (by simp), rfl⟩
  · intro status raw r h hdo hun hcode
    rw [doRequest_bad_code cfg w status raw r h hdo hun hcode]
    exact ⟨emit_not_debug cfg _ _ (by simp), rfl⟩

theorem failure_logs_one_error_witness :
    (doRequest sampleConfig sampleFailingWorld).log
      = [⟨Level.error, none, "Unexpected response: 500 => bad"⟩] :=
  (((failure_logs_one_error sampleConfig sampleFailingWorld).2.2.2.2 200
    "\x7b\"code\":500,\"error\":\"bad\"\x7d" ⟨500, "bad", ""⟩ rfl rfl
    (by simp [sampleFailingWorld, sampleWorld, zeroResponse]) (by decide)).1).trans (by decide)

/-- C7: every request `doRequest` hands to the client is the request of the wire protocol:
method POST, the configured import endpoint, the body `{"path":"/","move":b}` with `b` the
configured flag, `Authorization: Bearer <token>` and `Content-Type: application/json`; the
body is what `json.Marshal` gives for `RequestBody{"/", move}`; a request is handed to
the client whenever it can be built; and the endpoint, the flag and the token are those
`main` configured (the joined URL, `-move`, the environment variable). -/
theorem request_is_fixed_post (cfg : Config) (w : World) :
    (∀ r ∈ (doRequest cfg w).sent,
        r.Method = "POST"
          ∧ r.URL = cfg.apiURL
          ∧ r.Body = "\x7b\"path\":\"/\",\"move\":" ++ (if cfg.move then "true" else "false")
              ++ "\x7d"
          ∧ headerGet r.Header "Authorization" = "Bearer " ++ cfg.token
          ∧ headerGet r.Header "Content-Type" = "application/json"
          ∧ r = importRequest cfg.apiURL cfg.token cfg.move)
      ∧ (w.newRequest "POST" cfg.apiURL = none →
          (doRequest cfg w).sent = [importRequest cfg.apiURL cfg.token cfg.move])
      ∧ marshal ⟨"/", cfg.move⟩
          = Except.ok ("\x7b\"path\":\"/\",\"move\":" ++ (if cfg.move then "true" else "false")
              ++ "\x7d")
      ∧ (∀ os : OS, (main os).loop = some cfg →
          os.joinPath os.url "/import/" = Except.ok cfg.apiURL
            ∧ cfg.move = os.move
            ∧ cfg.token = os.Getenv appPasswordEnvKey) := by
  have hshape : ∀ r, r = importRequest cfg.apiURL cfg.token cfg.move →
      r.Method = "POST"
        ∧ r.URL = cfg.apiURL
        ∧ r.Body = "\x7b\"path\":\"/\",\"move\":" ++ (if cfg.move then "true" else "false")
            ++ "\x7d"
        ∧ headerGet r.Header "Authorization" = "Bearer " ++ cfg.token
        ∧ headerGet r.Header "Content-Type" = "application/json"
        ∧ r = importRequest cfg.apiURL cfg.token cfg.move := by
    intro r hr
    subst hr
    refine ⟨rfl, rfl, rfl, ?_, ?_, rfl⟩
    · simp [importRequest, headerGet]
    · simp [importRequest, headerGet]
  have hsent : w.newRequest "POST" cfg.apiURL = none →
      (doRequest cfg w).sent = [importRequest cfg.apiURL cfg.token cfg.move] := by
    intro hreq
    cases hdo : w.Do (importRequest cfg.apiURL cfg.token cfg.move) with
    | error err => rw [doRequest_transport_error cfg w err hreq hdo]
    | ok resp =>
      obtain ⟨status, body⟩ := resp
      cases body with
      | error err => rw [doRequest_read_error cfg w status err hreq hdo]
      | ok raw =>
        cases hun : w.unmarshal raw zeroResponse with
        | error err => rw [doRequest_unparseable cfg w status raw err hreq hdo hun]
        | ok r =>
          by_cases hcode : r.Code = 200
          · rw [doRequest_success cfg w status raw r hreq hdo hun hcode]
          · rw [doRequest_bad_code cfg w status raw r hreq hdo hun hcode]
  refine ⟨?_, hsent, marshal_requestBody cfg.move, ?_⟩
  swap
  · intro os hos
    obtain ⟨g1, g2, _, g4⟩ := main_loop_config os cfg hos
    exact ⟨g1, g2, g4⟩
  intro r hr
  apply hshape
  cases hreq : w.newRequest "POST" cfg.apiURL with
  | some err =>
    rw [doRequest_newRequest_error cfg w err hreq] at hr
    simp at hr
  | none =>
    rw [hsent hreq] at hr
    simpa using hr

theorem request_is_fixed_post_witness :
    (importRequest sampleConfig.apiURL sampleConfig.token sampleConfig.move).Body
        = "\x7b\"path\":\"/\",\"move\":true\x7d"
      ∧ headerGet (importRequest sampleConfig.apiURL sampleConfig.token sampleConfig.move).Header
          "Authorization" = "Bearer secret" :=
  ⟨((request_is_fixed_post sampleConfig sampleWorld).1
      (importRequest sampleConfig.apiURL sampleConfig.token sampleConfig.move)
      (by rw [(request_is_fixed_post sampleConfig sampleWorld).2.1 rfl]
          exact List.mem_singleton.mpr rfl)).2.2.1.trans (by decide),
   ((request_is_fixed_post sampleConfig sampleWorld).1
      (importRequest sampleConfig.apiURL sampleConfig.token sampleConfig.move)
      (by rw [(request_is_fixed_post sampleConfig sampleWorld).2.1 rfl]
          exact List.mem_singleton.mpr rfl)).2.2.2.1.trans (by decide)⟩

/-! ## Start-up: the claim -/

/-- C8: when `PHOTOPRISM_APP_PASSWORD` is unset or empty the process ends during start-up
with a non-zero exit status; the watcher is not created, the event loop is not started and
no directory is registered, so no input is ever handled and the Invoker never fires; and
when the checks before the token check pass, the end is the `log.Fatal` of the token
check. -/
theorem missing_token_is_fatal (os : OS)
    (h : os.env appPasswordEnvKey = none ∨ os.env appPasswordEnvKey = some "") :
    (∃ code, (main os).exit = some code ∧ code ≠ 0)
      ∧ Effect.newWatcher ∉ (main os).effects
      ∧ Effect.spawnLoop ∉ (main os).effects
      ∧ (∀ path, Effect.watcherAdd path ∉ (main os).effects)
      ∧ (main os).loop = none
      ∧ (∀ (race : Nat → Bool) (inputs : List (Nat × Input)),
          (process os race inputs).exit ≠ none
            ∧ (process os race inputs).loop = Coordinator.init
            ∧ (process os race inputs).loop.fires = [])
      ∧ (os.args.length = 1 → os.stat (os.args.headD "") = Except.ok true →
          (∃ u, os.joinPath os.url "/import/" = Except.ok u) →
          main os = ⟨[Effect.log ⟨Level.fatal, none,
            "PHOTOPRISM_APP_PASSWORD environment variable is required"⟩], some 1, none⟩) := by
  have htok : os.Getenv appPasswordEnvKey = "" := by
    unfold OS.Getenv
    rcases h with h | h <;> simp [h]
  have hmain : (∃ code, (main os).exit = some code ∧ code ≠ 0)
      ∧ Effect.newWatcher ∉ (main os).effects
      ∧ Effect.spawnLoop ∉ (main os).effects
      ∧ (∀ path, Effect.watcherAdd path ∉ (main os).effects)
      ∧ (main os).loop = none := by
    unfold main
    split
    · simp
    · simp only [htok]
      split
      · simp [fatal]
      · split
        · simp [fatal]
        · split
          · simp [fatal]
          · simp [fatal]
  obtain ⟨⟨code, hexit, hcode⟩, h2, h3, h4, h5⟩ := hmain
  refine ⟨⟨code, hexit, hcode⟩, h2, h3, h4, h5, ?_, ?_⟩
  · intro race inputs
    have hp : process os race inputs = ⟨some code, Coordinator.init⟩ := by
      unfold process
      rw [hexit]
    rw [hp]
    exact ⟨by simp, rfl, rfl⟩
  · intro hargs hstat hjoin
    obtain ⟨u, hu⟩ := hjoin
    unfold main
    rw [if_neg (by simp [hargs])]
    simp only [hstat, hu, htok]
    simp [fatal, appPasswordEnvKey]

theorem missing_token_is_fatal_witness :
    main sampleOS = ⟨[Effect.log ⟨Level.fatal, none,
      "PHOTOPRISM_APP_PASSWORD environment variable is required"⟩], some 1, none⟩ :=
  (missing_token_is_fatal sampleOS (Or.inl rfl)).2.2.2.2.2.2 rfl rfl
    ⟨"http://127.0.0.1:2342/api/v1/import/", rfl⟩

end PhotoprismAutoImport
